import Mathlib

/-!
Verification of the transcript segmentation engine of
`YouTubeTranscriptCrawlilng.py`: the segment normalizer
(`_normalize_segments`), the paragraph reconstructor
(`segments_to_paragraphs` with `_ts_to_secs` and `_clean_piece`), and the
plain-text and SRT renderers (`to_plain_text`, `to_srt`).

Python strings are modelled as lists of Unicode code points (`List Char`);
Python floats as rationals; a Python function that can raise is modelled
with `Option` (`none` = an exception propagates).
-/

set_option maxHeartbeats 1000000

namespace YTC

/-- Python strings are modelled as lists of code points. -/
abbrev PyStr := List Char

/-! ## Basic string helpers (models of Python primitives) -/

/-- ASCII whitespace, as recognized by the model of Python `str.strip()` and
of the regex class `\s`.  (Unicode-only whitespace such as NBSP is outside
the model; no input of interest contains it.) -/
def isPySpace (c : Char) : Bool :=
  c.toNat = 32 || c.toNat = 9 || c.toNat = 10 || c.toNat = 13 ||
    c.toNat = 11 || c.toNat = 12

/-- Model of Python `str.strip()`: drop leading and trailing whitespace. -/
def pyStrip (l : PyStr) : PyStr :=
  ((l.dropWhile isPySpace).reverse.dropWhile isPySpace).reverse

/-- The character set of Python `str.strip("[]")`. -/
def isBracket (c : Char) : Bool := c = '[' || c = ']'

/-- Model of `str.strip("[]")`: drop leading and trailing brackets. -/
def stripBrackets (l : PyStr) : PyStr :=
  ((l.dropWhile isBracket).reverse.dropWhile isBracket).reverse

/-- Model of Python `str.split(sep)` for a one-character separator:
`"".split(":") == [""]`, `":".split(":") == ["", ""]`, etc. -/
def pySplit (sep : Char) : PyStr → List PyStr
  | [] => [[]]
  | c :: rest =>
    if c = sep then [] :: pySplit sep rest
    else
      match pySplit sep rest with
      | r :: rs => (c :: r) :: rs
      | [] => [[c]]

/-- ASCII decimal digit test (`'0'` to `'9'`). -/
def isDigitChar (c : Char) : Bool := 48 ≤ c.toNat && c.toNat ≤ 57

/-- Value of a digit string, most significant digit first. -/
def digitsVal (l : PyStr) : Nat :=
  l.foldl (fun a c => a * 10 + (c.toNat - 48)) 0

/-- Parse a nonempty all-digit string as a natural number. -/
def pyNat (l : PyStr) : Option Nat :=
  if l ≠ [] ∧ l.all isDigitChar then some (digitsVal l) else none

/-- Model of Python `int(str)`: strip whitespace, optional sign, decimal
digits.  (Underscore digit grouping and non-ASCII decimal digits accepted
by CPython are outside the model.)  `none` models a raised `ValueError`. -/
def pyInt (l : PyStr) : Option Int :=
  match pyStrip l with
  | '+' :: r => (pyNat r).map (fun n => (n : Int))
  | '-' :: r => (pyNat r).map (fun n => -(n : Int))
  | r => (pyNat r).map (fun n => (n : Int))

/-- Fueled helper for `natRepr` (the fuel keeps the recursion structural so
that the kernel can evaluate it; `natRepr` always supplies enough fuel). -/
def natReprAux : Nat → Nat → PyStr
  | 0, _ => []
  | fuel + 1, n =>
    if n < 10 then [Nat.digitChar n]
    else natReprAux fuel (n / 10) ++ [Nat.digitChar (n % 10)]

/-- Decimal rendering of a natural number, as produced by Python
`str`/format. -/
def natRepr (n : Nat) : PyStr := natReprAux (n + 1) n

/-- Model of the Python format spec `{n:0wd}`: decimal rendering of an
integer zero-padded to width `w` (zeros go after the minus sign). -/
def zfill (w : Nat) (n : Int) : PyStr :=
  if n < 0 then
    '-' :: (List.replicate (w - 1 - (natRepr (-n).toNat).length) '0' ++
      natRepr (-n).toNat)
  else
    List.replicate (w - (natRepr n.toNat).length) '0' ++ natRepr n.toNat

/-- Join a list of lines with a single newline (Python
`"\n".join(lines)`). -/
def joinNL (lines : List PyStr) : PyStr :=
  List.intercalate ['\n'] lines

/-! ## `_ts_to_secs` (source lines 298-313) -/

/-- `_ts_to_secs`: `'M:SS'` or `'HH:MM:SS'` to seconds; `-1` when missing or
invalid.  The Python body strips whitespace and surrounding brackets, splits
on `':'`, and converts the parts with `int` inside a `try` whose `except`
returns `-1`. -/
def _ts_to_secs (ts : PyStr) : Int :=
  if ts = [] then -1
  else
    match pySplit ':' (stripBrackets (pyStrip ts)) with
    | [a, b] =>
      match pyInt a, pyInt b with
      | some m, some s => m * 60 + s
      | _, _ => -1
    | [a, b, c] =>
      match pyInt a, pyInt b, pyInt c with
      | some h, some m, some s => h * 3600 + m * 60 + s
      | _, _, _ => -1
    | _ => -1

/-! ## `_clean_piece` (source lines 316-320) -/

/-- Helper for `collapseWS`: the flag records whether the previous character
was whitespace (in which case further whitespace is dropped, being part of
the same `\s+` run). -/
def collapseAux : Bool → PyStr → PyStr
  | _, [] => []
  | prevSp, c :: rest =>
    if isPySpace c then
      if prevSp then collapseAux true rest
      else ' ' :: collapseAux true rest
    else c :: collapseAux false rest

/-- Model of `re.sub(r"\s+", " ", t)`: collapse each maximal run of
whitespace to a single space. -/
def collapseWS (l : PyStr) : PyStr := collapseAux false l

/-- `_clean_piece`: replace `'\n'` and `'\r'` by spaces, collapse whitespace
runs, strip. -/
def _clean_piece (t : PyStr) : PyStr :=
  pyStrip (collapseWS (t.map (fun c =>
    if c = '\n' then ' ' else if c = '\r' then ' ' else c)))

/-! ## `segments_to_paragraphs` (source lines 295, 323-399) -/

/-- `END_PUNCT = "。！？!?…"` (source line 295). -/
def END_PUNCT : List Char := "。！？!?…".toList

/-- The joiner punctuation set `end_punct + "，,。．.、;；:："` of source
line 375: a space is inserted before the next piece unless the previous
buffered chunk ends in one of these characters. -/
def JOINPUNCT (ep : List Char) : List Char :=
  ep ++ "，,。．.、;；:：".toList

/-- A segment of the canonical sequence: a `timestamp` string (`[]` models
both Python `None` and `""`, which the source treats alike via `or ""`) and
a `text` string. -/
structure Seg where
  timestamp : PyStr
  text : PyStr
deriving DecidableEq, Repr

/-- A reconstructed paragraph, kept as its flush-time data: the
`para_start_ts` value and the buffered pieces (separator spaces included as
`[' ']` elements).  The Python source renders this to one string at flush
time; the model renders at the end via `renderPara`, which is equivalent
because the source never reads `paras` again after appending. -/
structure Para where
  startTs : Option PyStr
  pieces : List PyStr
deriving DecidableEq, Repr

/-- The loop state of `segments_to_paragraphs`. -/
structure PSt where
  paras : List Para
  buf : List PyStr
  paraStartTs : Option PyStr
  prevSecs : Option Int
deriving DecidableEq, Repr

/-- `sum(len(x) for x in buf)`. -/
def bufLen (buf : List PyStr) : Nat := (buf.map List.length).sum

/-- The `should_break` computation of source lines 347-356: a time-gap break
(both timestamps known and `secs - prev_secs > gap_threshold`) or a soft
length break (buffer non-empty and buffered length at least `max_chars`). -/
def shouldBreak (gap : ℚ) (mc : Nat) (st : PSt) (secs : Int) : Bool :=
  let gapB :=
    match st.prevSecs with
    | some p =>
      decide (0 ≤ secs) && decide (0 ≤ p) &&
        decide (gap < ((secs - p : Int) : ℚ))
    | none => false
  gapB || (!st.buf.isEmpty && decide (mc ≤ bufLen st.buf))

/-- Flush the buffer as a paragraph (source lines 359-366, 383-389,
392-397): append the paragraph, clear the buffer, reset `para_start_ts`. -/
def flushPara (st : PSt) : PSt :=
  { paras := st.paras ++ [⟨st.paraStartTs, st.buf⟩]
    buf := []
    paraStartTs := none
    prevSecs := st.prevSecs }

/-- Whether `buf[-1]` ends in joiner punctuation (source line 375). -/
def lastEndsInJoin (buf : List PyStr) (ep : List Char) : Bool :=
  match buf.getLast? with
  | some lastPiece =>
    match lastPiece.getLast? with
    | some c => c ∈ JOINPUNCT ep
    | none => false
  | none => false

/-- Everything one loop iteration does before the eager punctuation flush
(source lines 346-379): break check, flush, `para_start_ts` update, joiner
space, append, `prev_secs` update. -/
def preEagerState (gap : ℚ) (mc : Nat) (ep : List Char) (st : PSt)
    (ts : PyStr) (secs : Int) (piece : PyStr) : PSt :=
  let st1 := if shouldBreak gap mc st secs && !st.buf.isEmpty
             then flushPara st else st
  let st2 := { st1 with
    paraStartTs :=
      if st1.buf.isEmpty then (if 0 ≤ secs then some ts else none)
      else st1.paraStartTs }
  let buf3 :=
    if st2.buf.isEmpty then st2.buf
    else if lastEndsInJoin st2.buf ep then st2.buf
    else st2.buf ++ [[' ']]
  { st2 with buf := buf3 ++ [piece], prevSecs := some secs }

/-- The eager punctuation flush of source lines 381-389: if the appended
piece ends in a strong terminator and the buffer holds at least 30
characters, flush immediately. -/
def eagerFlush (ep : List Char) (piece : PyStr) (st : PSt) : PSt :=
  match piece.getLast? with
  | some c => if c ∈ ep ∧ 30 ≤ bufLen st.buf then flushPara st else st
  | none => st

/-- One iteration of the `for seg in segments` loop of
`segments_to_paragraphs` (source lines 339-389). -/
def stepSeg (gap : ℚ) (mc : Nat) (ep : List Char) (st : PSt) (seg : Seg) :
    PSt :=
  let ts := seg.timestamp
  let secs := _ts_to_secs ts
  let piece := _clean_piece seg.text
  if piece = [] then st
  else eagerFlush ep piece (preEagerState gap mc ep st ts secs piece)

/-- The initial loop state (source lines 334-337). -/
def initSt : PSt := ⟨[], [], none, none⟩

/-- The state after the whole forward pass. -/
def runSegs (gap : ℚ) (mc : Nat) (ep : List Char) (segs : List Seg) : PSt :=
  segs.foldl (stepSeg gap mc ep) initSt

/-- The paragraph list after the final flush of source lines 392-397. -/
def parasOf (gap : ℚ) (mc : Nat) (ep : List Char) (segs : List Seg) :
    List Para :=
  (runSegs gap mc ep segs).paras ++
    (if (runSegs gap mc ep segs).buf = [] then []
     else [⟨(runSegs gap mc ep segs).paraStartTs,
       (runSegs gap mc ep segs).buf⟩])

/-- Render one paragraph the way the source does at flush time:
`"".join(buf).strip()`, prefixed `[ts] ` when `keep_timestamps` and
`para_start_ts` is truthy. -/
def renderPara (keepTs : Bool) (p : Para) : PyStr :=
  let body := pyStrip (List.flatten p.pieces)
  match p.startTs with
  | some t => if keepTs ∧ t ≠ [] then '[' :: (t ++ ']' :: ' ' :: body)
              else body
  | none => body

/-- `segments_to_paragraphs(segments, gap_threshold, max_chars, end_punct,
keep_timestamps)`. -/
def segments_to_paragraphs (segs : List Seg) (gap : ℚ) (mc : Nat)
    (ep : List Char) (keepTs : Bool) : List PyStr :=
  (parasOf gap mc ep segs).map (renderPara keepTs)

/-- The buffered pieces of a paragraph with the inserted separator spaces
removed (the separators are exactly the `[' ']` buffer elements added at
source line 376), concatenated. -/
def bufContent (buf : List PyStr) : PyStr :=
  List.flatten (buf.filter (fun b => decide (b ≠ [' '])))

/-! ## `_normalize_segments` (source lines 80-123) -/

/-- A Python value that can sit in a `start`/`text` field of a raw record:
a number (int/float, modelled exactly as a rational) or a string. -/
inductive PyVal
  | num (q : ℚ)
  | str (s : PyStr)
deriving DecidableEq, Repr

/-- Python truthiness for the modelled values. -/
def pyTruthy : PyVal → Bool
  | .num q => decide (q ≠ 0)
  | .str s => !s.isEmpty

/-- Parse an unsigned decimal literal (`digits`, `digits.digits`,
`digits.`, `.digits`). -/
def parseDec (l : PyStr) : Option ℚ :=
  let ip := l.takeWhile isDigitChar
  match l.dropWhile isDigitChar with
  | [] => if ip = [] then none else some ((digitsVal ip : ℚ))
  | '.' :: fr =>
    if fr.all isDigitChar ∧ ¬(ip = [] ∧ fr = []) then
      some ((digitsVal ip : ℚ) + (digitsVal fr : ℚ) / ((10 : ℚ) ^ fr.length))
    else none
  | _ => none

/-- Model of Python `float(x)` for the modelled values: a number converts
to itself, a string is stripped and parsed as a signed decimal literal.
(Exponent, `inf`/`nan` and underscore forms accepted by CPython are outside
the model.)  `none` models a raised `ValueError`/`TypeError`. -/
def pyFloat : PyVal → Option ℚ
  | .num q => some q
  | .str s =>
    match pyStrip s with
    | '+' :: r => parseDec r
    | '-' :: r => (parseDec r).map Neg.neg
    | r => parseDec r

/-- The text cleaning of `_normalize_segments`:
`.replace("\n", " ").strip()` (note: no whitespace collapsing here, unlike
`_clean_piece`). -/
def normClean (t : PyStr) : PyStr :=
  pyStrip (t.map (fun c => if c = '\n' then ' ' else c))

/-- Python `round()` (banker's rounding, half to even), on rationals.
Computed from the numerator and denominator with integer arithmetic only:
`f = ⌊q⌋` and `r2 = 2 * den * (q - f)` is compared against `den`. -/
def pyRound (q : ℚ) : Int :=
  let f := q.num.fdiv q.den
  let r2 := 2 * (q.num - f * (q.den : Int))
  if r2 < (q.den : Int) then f
  else if (q.den : Int) < r2 then f + 1
  else if f % 2 = 0 then f else f + 1

/-- `sec_to_hms` (source lines 89-94): `int(round(float(sec)))` rendered as
zero-padded `HH:MM:SS` (Python `//` and `%` are floor division/modulo). -/
def sec_to_hms (q : ℚ) : PyStr :=
  let sec := pyRound q
  zfill 2 (sec.fdiv 3600) ++ ':' ::
    zfill 2 ((sec.fmod 3600).fdiv 60) ++ ':' :: zfill 2 (sec.fmod 60)

/-- A raw record handed to `_normalize_segments`: a keyed mapping with
optional `start`/`text` entries, an object with optional `start`/`text`
attributes and an optional `get_text()` capability, an ordered
tuple/list, or anything else. -/
inductive Raw
  | dict (start : Option PyVal) (text : Option PyVal)
  | obj (start : Option PyVal) (text : Option PyVal) (getText : Option PyStr)
  | tup (elems : List PyVal)
  | other
deriving DecidableEq, Repr

/-- Outcome of normalizing one raw record: skipped (`continue`), one
segment appended, or an uncaught exception. -/
inductive NormStep
  | skip
  | seg (s : Seg)
  | err
deriving DecidableEq, Repr

/-- `(x or "")` followed by `.replace`, for a `text` field: an absent field
or a falsy value becomes `""`; a truthy number has no `.replace` and
raises. -/
def textFromVal : Option PyVal → Option PyStr
  | none => some []
  | some (.str s) => some s
  | some (.num q) => if q = 0 then some [] else none

/-- `float(x.get("start", 0.0))` / `float(getattr(x, "start", 0.0))`: an
absent field defaults to `0.0`; a present one goes through `float`. -/
def startFromVal : Option PyVal → Option ℚ
  | none => some 0
  | some v => pyFloat v

/-- The tuple branch body of `_normalize_segments` (source lines 110-118):
`start = float(start or 0.0)`, `text = (text or "").replace("\n", " ").strip()`. -/
def tupGo (start text : PyVal) : NormStep :=
  match pyFloat (if pyTruthy start then start else .num 0),
        textFromVal (some text) with
  | some q, some t => .seg ⟨sec_to_hms q, normClean t⟩
  | _, _ => .err

/-- Normalize one raw record (one iteration of the `for i in raw` loop of
source lines 97-122). -/
def normOne : Raw → NormStep
  | .dict st tx =>
    match startFromVal st, textFromVal tx with
    | some q, some t => .seg ⟨sec_to_hms q, normClean t⟩
    | _, _ => .err
  | .obj st tx gtx =>
    if st.isSome || tx.isSome then
      match startFromVal st, textFromVal tx with
      | some q, some t0 =>
        let t1 := if t0 = [] then (match gtx with
                                   | some g => g
                                   | none => t0)
                  else t0
        .seg ⟨sec_to_hms q, normClean t1⟩
      | _, _ => .err
    else .skip
  | .tup (a :: _ :: c :: _) => tupGo a c
  | .tup [a, b] => tupGo a b
  | .tup _ => .skip
  | .other => .skip

/-- `_normalize_segments`: normalize a batch; `none` models an uncaught
exception escaping the loop. -/
def _normalize_segments : List Raw → Option (List Seg)
  | [] => some []
  | r :: rs =>
    match normOne r with
    | .err => none
    | .skip => _normalize_segments rs
    | .seg s => (_normalize_segments rs).map (fun out => s :: out)

/-! ## `to_plain_text` (source lines 209-219) -/

/-- `to_plain_text`: `[ts] text` when the timestamp is truthy, the text
alone otherwise, joined with newlines. -/
def to_plain_text (segs : List Seg) : PyStr :=
  joinNL (segs.map (fun seg =>
    if seg.timestamp ≠ [] then
      '[' :: (seg.timestamp ++ ']' :: ' ' :: seg.text)
    else seg.text))

/-- Spec-side rendering of one plain-text line, written from the claim:
for a segment with a known timestamp the literal line `[H:MM:SS] text`,
for an unknown timestamp the text alone. -/
def plainLineSpec (seg : Seg) : PyStr :=
  if seg.timestamp = [] then seg.text
  else '[' :: (seg.timestamp ++ ']' :: ' ' :: seg.text)

/-- Spec-side plain-text renderer: all lines joined with a single
newline. -/
def plainTextSpec (segs : List Seg) : PyStr :=
  joinNL (segs.map plainLineSpec)

/-! ## `to_srt` (source lines 237-292) -/

/-- `mapOpt f l`: a Python list comprehension over `l` in which `f` may
raise (`none` propagates). -/
def mapOpt (f : α → Option β) : List α → Option (List β)
  | [] => some []
  | a :: as_ =>
    match f a, mapOpt f as_ with
    | some b, some bs => some (b :: bs)
    | _, _ => none

/-- `hms_to_secs` (source lines 240-246): int-parse every `':'`-separated
part, then read 2 parts as `M:SS` and 3 parts as `H:MM:SS`; any other part
count fails the tuple unpacking and raises. -/
def hms_to_secs (l : PyStr) : Option Int :=
  match mapOpt pyInt (pySplit ':' l) with
  | none => none
  | some [m, s] => some (m * 60 + s)
  | some [h, m, s] => some (h * 3600 + m * 60 + s)
  | some _ => none

/-- `secs_to_srt_time` (source lines 248-263) on the integer path taken in
`to_srt` (`ms` is always 0 there): `HH:MM:SS,000`. -/
def secs_to_srt_time (sec : Int) : PyStr :=
  zfill 2 (sec.fdiv 3600) ++ ':' ::
    zfill 2 ((sec.fmod 3600).fdiv 60) ++ ':' ::
    zfill 2 (sec.fmod 60) ++ ",000".toList

/-- The `M:SS -> 00:MM:SS` normalization pass of source lines 266-273. -/
def normSrtTs (seg : Seg) : Option Seg :=
  let ts := if seg.timestamp = [] then "00:00:00".toList else seg.timestamp
  if ts.count ':' = 1 then
    match pySplit ':' ts with
    | [ms, ss] =>
      match pyInt ms, pyInt ss with
      | some m, some s =>
        some ⟨"00:".toList ++ zfill 2 m ++ ':' :: zfill 2 s, seg.text⟩
      | _, _ => none
    | _ => none
  else some ⟨ts, seg.text⟩

/-- The cue-building loop of source lines 276-291: 1-based index, start and
end times (`max(start+1, next_start-1)`, or `start+2` for the last cue),
text, blank line. -/
def srtCues : Nat → List Seg → Option (List PyStr)
  | _, [] => some []
  | i, s :: rest =>
    match hms_to_secs s.timestamp with
    | none => none
    | some startSec =>
      match (match rest with
             | [] => some (startSec + 2)
             | nx :: _ =>
               (hms_to_secs nx.timestamp).map
                 (fun n => max (startSec + 1) (n - 1))) with
      | none => none
      | some endSec =>
        (srtCues (i + 1) rest).map (fun tail =>
          natRepr i ::
            (secs_to_srt_time startSec ++ " --> ".toList ++
              secs_to_srt_time endSec) :: s.text :: [] :: tail)

/-- `to_srt`: normalize all timestamps, then build the numbered cues and
join with newlines. -/
def to_srt (segs : List Seg) : Option PyStr :=
  match mapOpt normSrtTs segs with
  | none => none
  | some norm =>
    match srtCues 1 norm with
    | none => none
    | some lines => some (joinNL lines)

/-- Spec-side seconds of a timestamp, written from the claim: the (possibly
defaulted) timestamp string read as `M:SS` or `H:MM:SS`. -/
def specSecs (ts : PyStr) : Option Int :=
  hms_to_secs (if ts = [] then "00:00:00".toList else ts)

/-- Spec-side cue lines, written from the claim: one numbered cue per
segment in order; each non-final cue ends at `max(start+1, next_start-1)`
seconds, the final cue at `start+2`. -/
def srtSpecLines : Nat → List (Int × PyStr) → List PyStr
  | _, [] => []
  | i, (s, t) :: rest =>
    let e := match rest with
             | [] => s + 2
             | (n, _) :: _ => max (s + 1) (n - 1)
    natRepr i ::
      (secs_to_srt_time s ++ " --> ".toList ++ secs_to_srt_time e) ::
      t :: [] :: srtSpecLines (i + 1) rest

/-! ## Verification-side predicates for the paragraph content theorem -/

/-- `l` has no leading or trailing whitespace (so `pyStrip` fixes it). -/
def stripOK (l : PyStr) : Prop :=
  (∀ c, l.head? = some c → isPySpace c = false) ∧
  (∀ c, l.getLast? = some c → isPySpace c = false)

/-- A genuine buffered piece: nonempty and strip-fixed (every piece comes
out of `_clean_piece`, which guarantees this). -/
def pieceOK (l : PyStr) : Prop := l ≠ [] ∧ stripOK l

/-- Shape of the live buffer: every element is either the inserted
separator space or a genuine piece, and the first and last elements are
genuine pieces. -/
def bufOK (buf : List PyStr) : Prop :=
  (∀ l ∈ buf, l = [' '] ∨ pieceOK l) ∧
  (∀ l, buf.head? = some l → pieceOK l) ∧
  (∀ l, buf.getLast? = some l → pieceOK l)

/-- Loop-state invariant: all flushed paragraphs hold nonempty well-shaped
buffers, and the live buffer is well-shaped. -/
def stInv (st : PSt) : Prop :=
  (∀ p ∈ st.paras, p.pieces ≠ [] ∧ bufOK p.pieces) ∧ bufOK st.buf

/-- Total character content of a state: all paragraph pieces plus the live
buffer, with separator spaces removed. -/
def stContent (st : PSt) : PyStr :=
  List.flatten (st.paras.map (fun p => bufContent p.pieces)) ++
    bufContent st.buf

/-! ## Lemmas -/

theorem shouldBreak_iff (gap : ℚ) (mc : Nat) (st : PSt) (secs : Int) :
    shouldBreak gap mc st secs = true ↔
      ((∃ p, st.prevSecs = some p ∧ 0 ≤ p ∧ 0 ≤ secs ∧
          gap < (secs : ℚ) - (p : ℚ)) ∨
        (st.buf ≠ [] ∧ mc ≤ bufLen st.buf)) := by
  unfold shouldBreak
  cases h : st.prevSecs with
  | none =>
    simp [h, Bool.and_eq_true, List.isEmpty_iff]
  | some p =>
    simp only [h, Bool.or_eq_true, Bool.and_eq_true, Bool.not_eq_true',
      List.isEmpty_eq_false_iff_exists_mem, decide_eq_true_iff,
      Option.some.injEq]
    constructor
    · rintro (⟨h1, h2⟩ | ⟨⟨x, hx⟩, h2⟩)
      · refine Or.inl ⟨p, rfl, h1.2, h1.1, ?_⟩
        have := h2
        push_cast at this
        linarith
      · exact Or.inr ⟨fun hn => by simp [hn] at hx, h2⟩
    · rintro (⟨q, hq, h1, h2, h3⟩ | ⟨h1, h2⟩)
      · cases hq
        refine Or.inl ⟨⟨h2, h1⟩, ?_⟩
        push_cast
        linarith
      · refine Or.inr ⟨?_, h2⟩
        cases hb : st.buf with
        | nil => exact absurd hb h1
        | cons x xs => exact ⟨x, by simp [hb]⟩

/-- C1: in `segments_to_paragraphs`, `should_break` is true exactly when
(the previous and current timestamps are both known and
`current - previous > gap_threshold`) or (the buffer is non-empty and the
buffered character count is at least `max_chars`); with `gap_threshold=2.0`,
two short segments at 0 and 5 seconds give two paragraphs, the same two at
0 and 1 seconds give one paragraph. -/
theorem claim_C1 :
    (∀ (gap : ℚ) (mc : Nat) (st : PSt) (secs : Int),
      shouldBreak gap mc st secs = true ↔
        ((∃ p, st.prevSecs = some p ∧ 0 ≤ p ∧ 0 ≤ secs ∧
            gap < (secs : ℚ) - (p : ℚ)) ∨
          (st.buf ≠ [] ∧ mc ≤ bufLen st.buf))) ∧
    segments_to_paragraphs
      [⟨"0:00".toList, "hello".toList⟩, ⟨"0:05".toList, "world".toList⟩]
      2 220 END_PUNCT false = ["hello".toList, "world".toList] ∧
    segments_to_paragraphs
      [⟨"0:00".toList, "hello".toList⟩, ⟨"0:01".toList, "world".toList⟩]
      2 220 END_PUNCT false = ["hello world".toList] :=
  ⟨shouldBreak_iff, by decide, by decide⟩

theorem preEagerState_buf_eq (gap : ℚ) (mc : Nat) (ep : List Char)
    (st : PSt) (ts : PyStr) (secs : Int) (piece : PyStr) :
    ∃ b, (preEagerState gap mc ep st ts secs piece).buf = b ++ [piece] :=
  ⟨_, rfl⟩

theorem preEagerState_buf_ne_nil (gap : ℚ) (mc : Nat) (ep : List Char)
    (st : PSt) (ts : PyStr) (secs : Int) (piece : PyStr) :
    (preEagerState gap mc ep st ts secs piece).buf ≠ [] := by
  obtain ⟨b, hb⟩ := preEagerState_buf_eq gap mc ep st ts secs piece
  simp [hb]

theorem stepSeg_eager (gap : ℚ) (mc : Nat) (ep : List Char) (st : PSt)
    (seg : Seg) (c : Char) (h1 : _clean_piece seg.text ≠ [])
    (h2 : (_clean_piece seg.text).getLast? = some c) (h3 : c ∈ ep)
    (h4 : 30 ≤ bufLen (preEagerState gap mc ep st seg.timestamp
      (_ts_to_secs seg.timestamp) (_clean_piece seg.text)).buf) :
    stepSeg gap mc ep st seg =
      flushPara (preEagerState gap mc ep st seg.timestamp
        (_ts_to_secs seg.timestamp) (_clean_piece seg.text)) := by
  unfold stepSeg eagerFlush
  rw [if_neg h1, h2]
  exact if_pos ⟨h3, h4⟩

theorem stepSeg_no_eager (gap : ℚ) (mc : Nat) (ep : List Char) (st : PSt)
    (seg : Seg) (c : Char) (h1 : _clean_piece seg.text ≠ [])
    (h2 : (_clean_piece seg.text).getLast? = some c) (h3 : c ∉ ep) :
    stepSeg gap mc ep st seg =
      preEagerState gap mc ep st seg.timestamp
        (_ts_to_secs seg.timestamp) (_clean_piece seg.text) := by
  unfold stepSeg eagerFlush
  rw [if_neg h1, h2]
  exact if_neg (fun hc => h3 hc.1)

/-- C2: in `segments_to_paragraphs`, immediately after a cleaned piece is
appended, if it ends in a strong sentence terminator (the `END_PUNCT` set,
which contains no comma) and the buffered character count is at least 30,
the buffer is flushed as a paragraph within the same iteration. -/
theorem claim_C2 :
    (',' ∉ END_PUNCT ∧ '，' ∉ END_PUNCT) ∧
    ∀ (gap : ℚ) (mc : Nat) (st : PSt) (seg : Seg) (c : Char),
      _clean_piece seg.text ≠ [] →
      (_clean_piece seg.text).getLast? = some c →
      c ∈ END_PUNCT →
      30 ≤ bufLen (preEagerState gap mc END_PUNCT st seg.timestamp
        (_ts_to_secs seg.timestamp) (_clean_piece seg.text)).buf →
      stepSeg gap mc END_PUNCT st seg =
        flushPara (preEagerState gap mc END_PUNCT st seg.timestamp
          (_ts_to_secs seg.timestamp) (_clean_piece seg.text)) :=
  ⟨by decide, fun gap mc st seg c h1 h2 h3 h4 =>
    stepSeg_eager gap mc END_PUNCT st seg c h1 h2 h3 h4⟩

theorem claim_C2_witness :
    stepSeg 2 220 END_PUNCT initSt
      ⟨"0:00".toList, "This caption ends with a bang!".toList⟩ =
      flushPara (preEagerState 2 220 END_PUNCT initSt "0:00".toList
        (_ts_to_secs "0:00".toList)
        (_clean_piece "This caption ends with a bang!".toList)) :=
  claim_C2.2 2 220 initSt
    ⟨"0:00".toList, "This caption ends with a bang!".toList⟩ '!'
    (by decide) (by decide) (by decide) (by decide)

/-- C10: the eager flush in `segments_to_paragraphs` fires only for the six
characters of `END_PUNCT` (`。！？!?…`); a piece ending in `'.'`, `','`,
`';'` or `':'` never triggers it, even though those characters do suppress
the joiner space, so a sentence ending in `'.'` is closed only by a later
gap break, length break, or end of input. -/
theorem claim_C10 :
    END_PUNCT = "。！？!?…".toList ∧
    ('.' ∉ END_PUNCT ∧ ',' ∉ END_PUNCT ∧ ';' ∉ END_PUNCT ∧
      ':' ∉ END_PUNCT) ∧
    ('.' ∈ JOINPUNCT END_PUNCT ∧ ',' ∈ JOINPUNCT END_PUNCT ∧
      ';' ∈ JOINPUNCT END_PUNCT ∧ ':' ∈ JOINPUNCT END_PUNCT) ∧
    (∀ (gap : ℚ) (mc : Nat) (st : PSt) (seg : Seg) (c : Char),
      _clean_piece seg.text ≠ [] →
      (_clean_piece seg.text).getLast? = some c →
      c ∉ END_PUNCT →
      stepSeg gap mc END_PUNCT st seg =
        preEagerState gap mc END_PUNCT st seg.timestamp
          (_ts_to_secs seg.timestamp) (_clean_piece seg.text) ∧
      (stepSeg gap mc END_PUNCT st seg).buf ≠ []) ∧
    segments_to_paragraphs
      [⟨"0:00".toList, "This sentence has many characters.".toList⟩,
       ⟨"0:01".toList, "and more.".toList⟩] 2 220 END_PUNCT false =
      ["This sentence has many characters.and more.".toList] ∧
    segments_to_paragraphs
      [⟨"0:00".toList, "This sentence has many characters…".toList⟩,
       ⟨"0:01".toList, "and more.".toList⟩] 2 220 END_PUNCT false =
      ["This sentence has many characters…".toList, "and more.".toList] := by
  refine ⟨rfl, by decide, by decide, ?_, by decide, by decide⟩
  intro gap mc st seg c h1 h2 h3
  have he := stepSeg_no_eager gap mc END_PUNCT st seg c h1 h2 h3
  refine ⟨he, ?_⟩
  rw [he]
  exact preEagerState_buf_ne_nil _ _ _ _ _ _ _

theorem claim_C10_witness :
    stepSeg 2 220 END_PUNCT initSt ⟨"0:00".toList, "hello".toList⟩ =
      preEagerState 2 220 END_PUNCT initSt "0:00".toList
        (_ts_to_secs "0:00".toList) (_clean_piece "hello".toList) ∧
    (stepSeg 2 220 END_PUNCT initSt
      ⟨"0:00".toList, "hello".toList⟩).buf ≠ [] :=
  claim_C10.2.2.2.1 2 220 initSt ⟨"0:00".toList, "hello".toList⟩ 'o'
    (by decide) (by decide) (by decide)

/-! ## Decimal rendering and parsing round-trip -/

theorem digitChar_toNat (d : Nat) (h : d < 10) :
    (Nat.digitChar d).toNat = 48 + d := by
  revert h
  revert d
  decide

theorem digitChar_isDigit (d : Nat) (h : d < 10) :
    isDigitChar (Nat.digitChar d) = true := by
  revert h
  revert d
  decide

theorem digitsVal_append_one (l : PyStr) (c : Char) :
    digitsVal (l ++ [c]) = digitsVal l * 10 + (c.toNat - 48) := by
  unfold digitsVal
  rw [List.foldl_append]
  rfl

theorem natReprAux_ne_nil (fuel n : Nat) (h : n < fuel) :
    natReprAux fuel n ≠ [] := by
  induction fuel with
  | zero => omega
  | succ f _ih =>
    unfold natReprAux
    by_cases h10 : n < 10
    · simp [h10]
    · simp [h10]

theorem natReprAux_all_digits (fuel : Nat) :
    ∀ n, n < fuel → (natReprAux fuel n).all isDigitChar = true := by
  induction fuel with
  | zero => omega
  | succ f ih =>
    intro n hn
    unfold natReprAux
    by_cases h10 : n < 10
    · simp [h10, digitChar_isDigit n h10]
    · have hrec : n / 10 < f := by omega
      simp only [h10, if_false, List.all_append, List.all_cons, List.all_nil,
        Bool.and_eq_true]
      exact ⟨ih (n / 10) hrec,
        by simp [digitChar_isDigit (n % 10) (Nat.mod_lt n (by omega))]⟩

theorem digitsVal_natReprAux (fuel : Nat) :
    ∀ n, n < fuel → digitsVal (natReprAux fuel n) = n := by
  induction fuel with
  | zero => omega
  | succ f ih =>
    intro n hn
    unfold natReprAux
    by_cases h10 : n < 10
    · simp only [h10, if_true]
      unfold digitsVal
      simp [digitChar_toNat n h10]
    · have hrec : n / 10 < f := by omega
      simp only [h10, if_false]
      rw [digitsVal_append_one, ih (n / 10) hrec,
        digitChar_toNat (n % 10) (Nat.mod_lt n (by omega))]
      omega

theorem natRepr_ne_nil (n : Nat) : natRepr n ≠ [] :=
  natReprAux_ne_nil (n + 1) n (Nat.lt_succ_self n)

theorem natRepr_all_digits (n : Nat) :
    (natRepr n).all isDigitChar = true :=
  natReprAux_all_digits (n + 1) n (Nat.lt_succ_self n)

theorem digitsVal_natRepr (n : Nat) : digitsVal (natRepr n) = n :=
  digitsVal_natReprAux (n + 1) n (Nat.lt_succ_self n)

theorem pyNat_natRepr (n : Nat) : pyNat (natRepr n) = some n := by
  unfold pyNat
  rw [if_pos ⟨natRepr_ne_nil n, natRepr_all_digits n⟩, digitsVal_natRepr]

theorem digit_not_space (c : Char) (h : isDigitChar c = true) :
    isPySpace c = false := by
  unfold isDigitChar at h
  unfold isPySpace
  simp only [Bool.and_eq_true, decide_eq_true_iff] at h
  simp only [Bool.or_eq_false_iff, decide_eq_false_iff_not]
  omega

theorem dropWhile_eq_self_of_head (p : Char → Bool) (l : PyStr)
    (h : ∀ c, l.head? = some c → p c = false) : l.dropWhile p = l := by
  cases l with
  | nil => rfl
  | cons a rest => simp [List.dropWhile_cons, h a rfl]

theorem pyStrip_eq_self_of_no_space (l : PyStr)
    (h : ∀ c ∈ l, isPySpace c = false) : pyStrip l = l := by
  unfold pyStrip
  rw [dropWhile_eq_self_of_head _ l
    (fun c hc => h c (List.mem_of_mem_head? hc))]
  rw [dropWhile_eq_self_of_head _ l.reverse
    (fun c hc => h c (by
      have := List.mem_of_mem_head? hc
      exact (List.mem_reverse).1 this))]
  exact List.reverse_reverse l

theorem natRepr_no_space (n : Nat) :
    ∀ c ∈ natRepr n, isPySpace c = false := by
  intro c hc
  have hall := natRepr_all_digits n
  rw [List.all_eq_true] at hall
  exact digit_not_space c (hall c hc)

theorem pyInt_natRepr (n : Nat) : pyInt (natRepr n) = some (n : Int) := by
  unfold pyInt
  rw [pyStrip_eq_self_of_no_space (natRepr n) (natRepr_no_space n)]
  obtain ⟨c, cs, hc⟩ := List.exists_cons_of_ne_nil (natRepr_ne_nil n)
  have hdig : isDigitChar c = true := by
    have hall := natRepr_all_digits n
    rw [List.all_eq_true] at hall
    exact hall c (by rw [hc]; exact List.mem_cons_self c cs)
  have hplus : c ≠ '+' := by
    intro hh
    rw [hh] at hdig
    simp [isDigitChar] at hdig
  have hminus : c ≠ '-' := by
    intro hh
    rw [hh] at hdig
    simp [isDigitChar] at hdig
  rw [hc]
  have hnat : pyNat (c :: cs) = some n := by
    rw [← hc]
    exact pyNat_natRepr n
  split
  · rename_i r heq
    exact absurd (List.cons.inj heq).1 hplus
  · rename_i r heq
    exact absurd (List.cons.inj heq).1 hminus
  · rw [hnat]
    rfl

theorem foldl_zeros (k : Nat) :
    List.foldl (fun a c => a * 10 + (c.toNat - 48)) 0
      (List.replicate k '0') = 0 := by
  induction k with
  | zero => rfl
  | succ j ih =>
    rw [List.replicate_succ, List.foldl_cons]
    have h0 : 0 * 10 + ('0'.toNat - 48) = 0 := by decide
    rw [h0]
    exact ih

theorem digitsVal_zeros_append (k : Nat) (l : PyStr) :
    digitsVal (List.replicate k '0' ++ l) = digitsVal l := by
  unfold digitsVal
  rw [List.foldl_append, foldl_zeros]

theorem zeros_natRepr_all_digits (k n : Nat) :
    (List.replicate k '0' ++ natRepr n).all isDigitChar = true := by
  rw [List.all_append, Bool.and_eq_true]
  refine ⟨?_, natRepr_all_digits n⟩
  rw [List.all_eq_true]
  intro c hc
  rw [List.eq_of_mem_replicate hc]
  decide

theorem pyNat_zeros_natRepr (k n : Nat) :
    pyNat (List.replicate k '0' ++ natRepr n) = some n := by
  unfold pyNat
  rw [if_pos ⟨by simp [natRepr_ne_nil n], zeros_natRepr_all_digits k n⟩,
    digitsVal_zeros_append, digitsVal_natRepr]

theorem pyInt_of_digits (l : PyStr) (hne : l ≠ [])
    (hall : l.all isDigitChar = true) :
    pyInt l = some ((digitsVal l : Nat) : Int) := by
  unfold pyInt
  rw [pyStrip_eq_self_of_no_space l (fun c hc =>
    digit_not_space c ((List.all_eq_true.1 hall) c hc))]
  obtain ⟨c, cs, hc⟩ := List.exists_cons_of_ne_nil hne
  have hdig : isDigitChar c = true :=
    (List.all_eq_true.1 hall) c (by rw [hc]; exact List.mem_cons_self c cs)
  have hplus : c ≠ '+' := by
    intro hh
    rw [hh] at hdig
    simp [isDigitChar] at hdig
  have hminus : c ≠ '-' := by
    intro hh
    rw [hh] at hdig
    simp [isDigitChar] at hdig
  have hnat : pyNat (c :: cs) = some (digitsVal l) := by
    rw [← hc]
    unfold pyNat
    rw [if_pos ⟨hne, hall⟩]
  rw [hc]
  split
  · rename_i r heq
    exact absurd (List.cons.inj heq).1 hplus
  · rename_i r heq
    exact absurd (List.cons.inj heq).1 hminus
  · rw [hnat]
    simp [hc]

theorem pyInt_zfill (w : Nat) (n : Int) : pyInt (zfill w n) = some n := by
  unfold zfill
  by_cases hn : n < 0
  · rw [if_pos hn]
    unfold pyInt
    rw [pyStrip_eq_self_of_no_space _ ?hsp]
    case hsp =>
      intro c hc
      rcases List.mem_cons.1 hc with h | h
      · rw [h]; decide
      · rcases List.mem_append.1 h with h2 | h2
        · rw [List.eq_of_mem_replicate h2]; decide
        · exact digit_not_space c ((List.all_eq_true.1
            (natRepr_all_digits (-n).toNat)) c h2)
    split
    · rename_i r heq
      exact absurd (List.cons.inj heq).1 (by decide)
    · rename_i r heq
      rw [← (List.cons.inj heq).2, pyNat_zeros_natRepr]
      show some (-(((-n).toNat : Nat) : Int)) = some n
      have hcast : -(((-n).toNat : Nat) : Int) = n := by omega
      rw [hcast]
    · rename_i hne1 hne2
      exact absurd rfl (hne2 _)
  · rw [if_neg hn]
    rw [pyInt_of_digits _ (by simp [natRepr_ne_nil n.toNat])
      (zeros_natRepr_all_digits _ _), digitsVal_zeros_append,
      digitsVal_natRepr]
    congr 1
    omega

/-! ## `pySplit` lemmas -/

theorem pySplit_no_sep (sep : Char) (b : PyStr) (h : sep ∉ b) :
    pySplit sep b = [b] := by
  induction b with
  | nil => rfl
  | cons c rest ih =>
    have hcs : ¬ c = sep := fun hh => h (hh ▸ List.mem_cons_self c rest)
    simp only [pySplit, if_neg hcs,
      ih (fun hm => h (List.mem_cons_of_mem c hm))]

theorem pySplit_append (sep : Char) (a b : PyStr) (h : sep ∉ a) :
    pySplit sep (a ++ sep :: b) = a :: pySplit sep b := by
  induction a with
  | nil =>
    simp only [List.nil_append, pySplit, if_pos]
  | cons c rest ih =>
    have hcs : ¬ c = sep := fun hh => h (hh ▸ List.mem_cons_self c _)
    simp only [List.cons_append, pySplit, if_neg hcs, List.append_eq,
      ih (fun hm => h (List.mem_cons_of_mem c hm))]

/-! ## C7: `_ts_to_secs` -/

theorem digit_ne_colon (c : Char) (h : isDigitChar c = true) : ¬ c = ':' := by
  intro hh
  rw [hh] at h
  simp [isDigitChar] at h

theorem digit_not_bracket (c : Char) (h : isDigitChar c = true) :
    isBracket c = false := by
  unfold isBracket
  simp only [Bool.or_eq_false_iff, decide_eq_false_iff_not]
  constructor
  · intro hh
    rw [hh] at h
    simp [isDigitChar] at h
  · intro hh
    rw [hh] at h
    simp [isDigitChar] at h

theorem stripBrackets_eq_self_of (l : PyStr)
    (h : ∀ c ∈ l, isBracket c = false) : stripBrackets l = l := by
  unfold stripBrackets
  rw [dropWhile_eq_self_of_head _ l
    (fun c hc => h c (List.mem_of_mem_head? hc))]
  rw [dropWhile_eq_self_of_head _ l.reverse
    (fun c hc => h c ((List.mem_reverse).1 (List.mem_of_mem_head? hc)))]
  exact List.reverse_reverse l

theorem colon_in_natRepr (n : Nat) : ':' ∉ natRepr n := by
  intro hm
  exact digit_ne_colon ':' ((List.all_eq_true.1 (natRepr_all_digits n))
    ':' hm) rfl

theorem ts2_chars (m s : Nat) :
    ∀ c ∈ natRepr m ++ ':' :: natRepr s,
      isDigitChar c = true ∨ c = ':' := by
  intro c hc
  rcases List.mem_append.1 hc with h | h
  · exact Or.inl ((List.all_eq_true.1 (natRepr_all_digits m)) c h)
  · rcases List.mem_cons.1 h with h2 | h2
    · exact Or.inr h2
    · exact Or.inl ((List.all_eq_true.1 (natRepr_all_digits s)) c h2)

theorem ts_char_no_space (c : Char)
    (h : isDigitChar c = true ∨ c = ':') : isPySpace c = false := by
  rcases h with h | h
  · exact digit_not_space c h
  · rw [h]; decide

theorem ts_char_no_bracket (c : Char)
    (h : isDigitChar c = true ∨ c = ':') : isBracket c = false := by
  rcases h with h | h
  · exact digit_not_bracket c h
  · rw [h]; decide

theorem ts_to_secs_two (m s : Nat) :
    _ts_to_secs (natRepr m ++ ':' :: natRepr s) = m * 60 + s := by
  unfold _ts_to_secs
  rw [if_neg (by simp [natRepr_ne_nil m])]
  rw [pyStrip_eq_self_of_no_space _
    (fun c hc => ts_char_no_space c (ts2_chars m s c hc))]
  rw [stripBrackets_eq_self_of _
    (fun c hc => ts_char_no_bracket c (ts2_chars m s c hc))]
  rw [pySplit_append ':' _ _ (colon_in_natRepr m),
    pySplit_no_sep ':' _ (colon_in_natRepr s)]
  simp [pyInt_natRepr]

theorem ts3_chars (h m s : Nat) :
    ∀ c ∈ natRepr h ++ ':' :: (natRepr m ++ ':' :: natRepr s),
      isDigitChar c = true ∨ c = ':' := by
  intro c hc
  rcases List.mem_append.1 hc with hh | hh
  · exact Or.inl ((List.all_eq_true.1 (natRepr_all_digits h)) c hh)
  · rcases List.mem_cons.1 hh with h2 | h2
    · exact Or.inr h2
    · exact ts2_chars m s c h2

theorem ts_to_secs_three (h m s : Nat) :
    _ts_to_secs (natRepr h ++ ':' :: (natRepr m ++ ':' :: natRepr s)) =
      h * 3600 + m * 60 + s := by
  unfold _ts_to_secs
  rw [if_neg (by simp [natRepr_ne_nil h])]
  rw [pyStrip_eq_self_of_no_space _
    (fun c hc => ts_char_no_space c (ts3_chars h m s c hc))]
  rw [stripBrackets_eq_self_of _
    (fun c hc => ts_char_no_bracket c (ts3_chars h m s c hc))]
  rw [pySplit_append ':' _ _ (colon_in_natRepr h),
    pySplit_append ':' _ _ (colon_in_natRepr m),
    pySplit_no_sep ':' _ (colon_in_natRepr s)]
  simp [pyInt_natRepr]

theorem ts_to_secs_two_parts (ts a b : PyStr) (m s : Int)
    (hsplit : pySplit ':' (stripBrackets (pyStrip ts)) = [a, b])
    (ha : pyInt a = some m) (hb : pyInt b = some s) :
    _ts_to_secs ts = m * 60 + s := by
  have hts : ts ≠ [] := by
    intro h
    rw [h, show pySplit ':' (stripBrackets (pyStrip [])) = [[]] from rfl]
      at hsplit
    simp at hsplit
  unfold _ts_to_secs
  rw [if_neg hts, hsplit]
  show (match pyInt a, pyInt b with
        | some m, some s => m * 60 + s
        | _, _ => (-1 : Int)) = m * 60 + s
  rw [ha, hb]

theorem ts_to_secs_three_parts (ts a b c : PyStr) (h m s : Int)
    (hsplit : pySplit ':' (stripBrackets (pyStrip ts)) = [a, b, c])
    (ha : pyInt a = some h) (hb : pyInt b = some m)
    (hc : pyInt c = some s) :
    _ts_to_secs ts = h * 3600 + m * 60 + s := by
  have hts : ts ≠ [] := by
    intro hn
    rw [hn, show pySplit ':' (stripBrackets (pyStrip [])) = [[]] from rfl]
      at hsplit
    simp at hsplit
  unfold _ts_to_secs
  rw [if_neg hts, hsplit]
  show (match pyInt a, pyInt b, pyInt c with
        | some h, some m, some s => h * 3600 + m * 60 + s
        | _, _, _ => (-1 : Int)) = h * 3600 + m * 60 + s
  rw [ha, hb, hc]

theorem ts_to_secs_bad_count (ts : PyStr)
    (h2 : (pySplit ':' (stripBrackets (pyStrip ts))).length ≠ 2)
    (h3 : (pySplit ':' (stripBrackets (pyStrip ts))).length ≠ 3) :
    _ts_to_secs ts = -1 := by
  unfold _ts_to_secs
  by_cases hts : ts = []
  · rw [if_pos hts]
  · rw [if_neg hts]
    rcases hp : pySplit ':' (stripBrackets (pyStrip ts)) with
      _ | ⟨a, _ | ⟨b, _ | ⟨c, _ | ⟨d, rest⟩⟩⟩⟩
    · rfl
    · rfl
    · exact absurd (by rw [hp]; simp) h2
    · exact absurd (by rw [hp]; simp) h3
    · rfl

theorem ts_to_secs_bad_part (ts : PyStr)
    (h : ∃ p ∈ (pySplit ':' (stripBrackets (pyStrip ts))).take 3,
      pyInt p = none) :
    _ts_to_secs ts = -1 := by
  obtain ⟨p, hmem, hnone⟩ := h
  unfold _ts_to_secs
  by_cases hts : ts = []
  · rw [if_pos hts]
  · rw [if_neg hts]
    rcases hp : pySplit ':' (stripBrackets (pyStrip ts)) with
      _ | ⟨a, _ | ⟨b, _ | ⟨c, _ | ⟨d, rest⟩⟩⟩⟩
    · rfl
    · rfl
    · rw [hp] at hmem
      simp only [List.take, List.mem_cons, List.not_mem_nil, or_false]
        at hmem
      show (match pyInt a, pyInt b with
            | some m, some s => m * 60 + s
            | _, _ => (-1 : Int)) = -1
      cases hA : pyInt a with
      | none => cases pyInt b <;> rfl
      | some mv =>
        cases hB : pyInt b with
        | none => rfl
        | some sv =>
          rcases hmem with hmem | hmem
          · rw [hmem] at hnone
            rw [hnone] at hA
            cases hA
          · rw [hmem] at hnone
            rw [hnone] at hB
            cases hB
    · rw [hp] at hmem
      simp only [List.take, List.mem_cons, List.not_mem_nil, or_false]
        at hmem
      show (match pyInt a, pyInt b, pyInt c with
            | some h, some m, some s => h * 3600 + m * 60 + s
            | _, _, _ => (-1 : Int)) = -1
      cases hA : pyInt a with
      | none => cases pyInt b <;> cases pyInt c <;> rfl
      | some hv =>
        cases hB : pyInt b with
        | none => cases pyInt c <;> rfl
        | some mv =>
          cases hC : pyInt c with
          | none => rfl
          | some sv =>
            rcases hmem with hmem | hmem | hmem
            · rw [hmem] at hnone; rw [hnone] at hA; cases hA
            · rw [hmem] at hnone; rw [hnone] at hB; cases hB
            · rw [hmem] at hnone; rw [hnone] at hC; cases hC
    · rfl

/-- C7: for every input string, `_ts_to_secs` splits on `':'` (after the
source's strip preprocessing) and returns `minutes*60+seconds` whenever the
split yields two integer parts, `hours*3600+minutes*60+seconds` whenever it
yields three integer parts (leading zeros and signs as accepted by `int()`
included), and the unknown sentinel `-1` for an empty/missing string, any
other part count, or any non-integer component; being a total function, it
never raises.  The five conjuncts cover every input string. -/
theorem claim_C7 :
    _ts_to_secs [] = -1 ∧
    (∀ (ts a b : PyStr) (m s : Int),
      pySplit ':' (stripBrackets (pyStrip ts)) = [a, b] →
      pyInt a = some m → pyInt b = some s →
      _ts_to_secs ts = m * 60 + s) ∧
    (∀ (ts a b c : PyStr) (h m s : Int),
      pySplit ':' (stripBrackets (pyStrip ts)) = [a, b, c] →
      pyInt a = some h → pyInt b = some m → pyInt c = some s →
      _ts_to_secs ts = h * 3600 + m * 60 + s) ∧
    (∀ ts : PyStr,
      (pySplit ':' (stripBrackets (pyStrip ts))).length ≠ 2 →
      (pySplit ':' (stripBrackets (pyStrip ts))).length ≠ 3 →
      _ts_to_secs ts = -1) ∧
    (∀ ts : PyStr,
      (∃ p ∈ (pySplit ':' (stripBrackets (pyStrip ts))).take 3,
        pyInt p = none) →
      _ts_to_secs ts = -1) :=
  ⟨rfl, ts_to_secs_two_parts, ts_to_secs_three_parts,
    ts_to_secs_bad_count, ts_to_secs_bad_part⟩

theorem claim_C7_witness :
    _ts_to_secs "00:02:15".toList = 135 ∧
    _ts_to_secs "0:05".toList = 5 ∧
    _ts_to_secs "2:15".toList = 135 ∧
    _ts_to_secs "abc".toList = -1 ∧
    _ts_to_secs "1:2:3:4".toList = -1 := by
  refine ⟨?_, ?_, ?_, ?_, ?_⟩
  · exact (claim_C7.2.2.1 ("00:02:15".toList) ("00".toList) ("02".toList)
      ("15".toList) 0 2 15 (by decide) (by decide) (by decide)
      (by decide)).trans (by decide)
  · exact (claim_C7.2.1 ("0:05".toList) ("0".toList) ("05".toList) 0 5
      (by decide) (by decide) (by decide)).trans (by decide)
  · exact (claim_C7.2.1 ("2:15".toList) ("2".toList) ("15".toList) 2 15
      (by decide) (by decide) (by decide)).trans (by decide)
  · exact claim_C7.2.2.2.2 ("abc".toList) ⟨"abc".toList, by decide, by decide⟩
  · exact claim_C7.2.2.2.1 ("1:2:3:4".toList) (by decide) (by decide)

/-! ## C4, C5, C6: `_normalize_segments` -/

theorem normOne_dict_start (v : PyVal) (q : ℚ) (t : PyStr)
    (h : pyFloat v = some q) :
    normOne (Raw.dict (some v) (some (PyVal.str t))) =
      NormStep.seg ⟨sec_to_hms q, normClean t⟩ := by
  simp [normOne, startFromVal, h, textFromVal]

theorem normOne_dict_badStart (v : PyVal) (t : PyStr)
    (h : pyFloat v = none) :
    normOne (Raw.dict (some v) (some (PyVal.str t))) = NormStep.err := by
  simp [normOne, startFromVal, h, textFromVal]

/-- C4 counterexample: a keyed mapping with a `text` field but no `start`
gets timestamp `00:00:00` — the known timestamp zero (`_ts_to_secs` reads
it as `0`, not the unknown sentinel `-1`) — and a mapping whose `start` is
unparseable makes the whole normalization raise instead of producing a
sentinel segment. -/
theorem claim_C4_counterexample :
    _normalize_segments [Raw.dict none (some (PyVal.str "hi".toList))] =
      some [⟨"00:00:00".toList, "hi".toList⟩] ∧
    _ts_to_secs "00:00:00".toList = 0 ∧
    _normalize_segments
      [Raw.dict (some (PyVal.str "abc".toList))
        (some (PyVal.str "hi".toList))] = none :=
  ⟨by decide, by decide, by decide⟩

/-- C4 amended: for a keyed mapping with a string `text` field, the
normalizer produces exactly one segment whose timestamp is the `start`
value when present and parseable; when `start` is absent the timestamp is
`0` (rendered `00:00:00`), not an unknown sentinel; and a present but
unparseable `start` raises, aborting normalization. -/
theorem claim_C4_amended :
    ∀ t : PyStr,
      normOne (Raw.dict none (some (PyVal.str t))) =
        NormStep.seg ⟨sec_to_hms 0, normClean t⟩ ∧
      (∀ (v : PyVal) (q : ℚ), pyFloat v = some q →
        normOne (Raw.dict (some v) (some (PyVal.str t))) =
          NormStep.seg ⟨sec_to_hms q, normClean t⟩) ∧
      (∀ v : PyVal, pyFloat v = none →
        normOne (Raw.dict (some v) (some (PyVal.str t))) =
          NormStep.err) :=
  fun t => ⟨rfl, fun v q h => normOne_dict_start v q t h,
    fun v h => normOne_dict_badStart v t h⟩

theorem claim_C4_witness :
    normOne (Raw.dict none (some (PyVal.str "hi".toList))) =
      NormStep.seg ⟨sec_to_hms 0, normClean "hi".toList⟩ ∧
    normOne (Raw.dict (some (PyVal.str "5".toList))
        (some (PyVal.str "hi".toList))) =
      NormStep.seg ⟨sec_to_hms 5, normClean "hi".toList⟩ ∧
    normOne (Raw.dict (some (PyVal.str "abc".toList))
        (some (PyVal.str "hi".toList))) = NormStep.err :=
  ⟨(claim_C4_amended "hi".toList).1,
    (claim_C4_amended "hi".toList).2.1 (PyVal.str "5".toList) 5 (by decide),
    (claim_C4_amended "hi".toList).2.2 (PyVal.str "abc".toList) (by decide)⟩

theorem normalize_skip_middle (pre post : List Raw) (r : Raw)
    (h : normOne r = NormStep.skip) :
    _normalize_segments (pre ++ r :: post) =
      _normalize_segments (pre ++ post) := by
  induction pre with
  | nil =>
    simp only [List.nil_append]
    conv_lhs => unfold _normalize_segments
    rw [h]
  | cons x xs ih =>
    simp only [List.cons_append]
    unfold _normalize_segments
    cases hx : normOne x with
    | err => rfl
    | skip => exact ih
    | seg s => rw [ih]

/-- C5 counterexample: the malformed record
`{"start": "abc", "text": "hi"}` matches the mapping shape but its `start`
is not parseable, so `float()` raises and the whole batch aborts — a single
malformed raw record can abort normalization. -/
theorem claim_C5_counterexample :
    normOne (Raw.dict (some (PyVal.str "abc".toList))
      (some (PyVal.str "hi".toList))) = NormStep.err ∧
    _normalize_segments
      [Raw.dict (some (PyVal.str "abc".toList))
        (some (PyVal.str "hi".toList)),
       Raw.dict none (some (PyVal.str "ok".toList))] = none :=
  ⟨by decide, by decide⟩

/-- C5 amended: a record matching none of the four accepted shapes is
skipped and processing of the remaining records continues; but a record
that does match a shape while carrying an unparseable `start` raises an
uncaught error and aborts the whole batch, so only shape-unrecognized
records are guaranteed to be skipped. -/
theorem claim_C5_amended :
    (∀ (pre post : List Raw) (r : Raw), normOne r = NormStep.skip →
      _normalize_segments (pre ++ r :: post) =
        _normalize_segments (pre ++ post)) ∧
    normOne Raw.other = NormStep.skip ∧
    (∀ gt, normOne (Raw.obj none none gt) = NormStep.skip) ∧
    (∀ v, normOne (Raw.tup [v]) = NormStep.skip) ∧
    normOne (Raw.tup []) = NormStep.skip :=
  ⟨normalize_skip_middle, rfl, fun _ => rfl, fun _ => rfl, rfl⟩

theorem claim_C5_witness :
    _normalize_segments
      [Raw.other, Raw.dict none (some (PyVal.str "hi".toList))] =
      _normalize_segments [Raw.dict none (some (PyVal.str "hi".toList))] :=
  claim_C5_amended.1 [] [Raw.dict none (some (PyVal.str "hi".toList))]
    Raw.other claim_C5_amended.2.1

/-- C6 counterexample: the raw mapping `{"start": 5}` (no text) is
normalized to a segment with empty text that IS appended to the canonical
sequence — empty-text entries are present before paragraph
reconstruction. -/
theorem claim_C6_counterexample :
    _normalize_segments [Raw.dict (some (PyVal.num 5)) none] =
      some [⟨"00:00:05".toList, []⟩] := by decide

/-- C6 amended: the normalizer appends raw records whose cleaned text is
empty as empty-text segments (it never drops them); empty-text entries are
instead skipped inside `segments_to_paragraphs`, whose loop leaves the
state unchanged for a segment with empty cleaned text. -/
theorem claim_C6_amended :
    (∀ (v : PyVal) (q : ℚ), pyFloat v = some q →
      normOne (Raw.dict (some v) none) =
        NormStep.seg ⟨sec_to_hms q, []⟩) ∧
    (∀ (gap : ℚ) (mc : Nat) (ep : List Char) (st : PSt) (seg : Seg),
      _clean_piece seg.text = [] → stepSeg gap mc ep st seg = st) := by
  constructor
  · intro v q h
    simp [normOne, startFromVal, h, textFromVal, normClean, pyStrip]
  · intro gap mc ep st seg h
    unfold stepSeg
    rw [if_pos h]

theorem claim_C6_witness :
    normOne (Raw.dict (some (PyVal.num 5)) none) =
      NormStep.seg ⟨sec_to_hms 5, []⟩ ∧
    stepSeg 2 220 END_PUNCT initSt ⟨"0:00".toList, "  ".toList⟩ =
      initSt :=
  ⟨claim_C6_amended.1 (PyVal.num 5) 5 rfl,
    claim_C6_amended.2 2 220 END_PUNCT initSt
      ⟨"0:00".toList, "  ".toList⟩ (by decide)⟩

/-! ## C9: `to_plain_text` -/

/-- C9: the plain-text renderer emits, for each segment with a known
timestamp, the literal line `[H:MM:SS] text` (with zero-padded components,
as produced by `sec_to_hms`), and for an unknown timestamp the text alone,
joining all lines with a single newline. -/
theorem claim_C9 :
    (∀ segs : List Seg, to_plain_text segs = plainTextSpec segs) ∧
    to_plain_text
      [⟨"00:02:15".toList, "hello".toList⟩, ⟨[], "world".toList⟩] =
      "[00:02:15] hello\nworld".toList ∧
    sec_to_hms 135 = "00:02:15".toList := by
  refine ⟨?_, by decide, by decide⟩
  intro segs
  unfold to_plain_text plainTextSpec plainLineSpec
  refine congrArg joinNL (List.map_congr_left ?_)
  intro seg _
  by_cases h : seg.timestamp = []
  · simp [h]
  · simp [h]

/-! ## C8: `to_srt` -/

theorem pySplit_ne_nil (sep : Char) (l : PyStr) : pySplit sep l ≠ [] := by
  induction l with
  | nil => simp [pySplit]
  | cons c rest ih =>
    unfold pySplit
    by_cases hc : c = sep
    · simp [hc]
    · rw [if_neg hc]
      cases hp : pySplit sep rest with
      | nil => simp
      | cons r rs => simp

theorem pySplit_length (sep : Char) (l : PyStr) :
    (pySplit sep l).length = l.count sep + 1 := by
  induction l with
  | nil => rfl
  | cons c rest ih =>
    unfold pySplit
    by_cases hc : c = sep
    · rw [if_pos hc]
      simp only [List.length_cons, ih, hc]
      rw [List.count_cons_self]
    · rw [if_neg hc]
      cases hp : pySplit sep rest with
      | nil => exact absurd hp (pySplit_ne_nil sep rest)
      | cons r rs =>
        simp only [List.length_cons]
        rw [hp] at ih
        simp only [List.length_cons] at ih
        rw [List.count_cons_of_ne (fun hh => hc hh.symm) rest]
        omega

theorem zfill_chars (w : Nat) (n : Int) :
    ∀ c ∈ zfill w n, isDigitChar c = true ∨ c = '-' := by
  intro c hc
  unfold zfill at hc
  by_cases hn : n < 0
  · rw [if_pos hn] at hc
    rcases List.mem_cons.1 hc with h | h
    · exact Or.inr h
    · rcases List.mem_append.1 h with h2 | h2
      · rw [List.eq_of_mem_replicate h2]
        exact Or.inl (by decide)
      · exact Or.inl ((List.all_eq_true.1
          (natRepr_all_digits (-n).toNat)) c h2)
  · rw [if_neg hn] at hc
    rcases List.mem_append.1 hc with h2 | h2
    · rw [List.eq_of_mem_replicate h2]
      exact Or.inl (by decide)
    · exact Or.inl ((List.all_eq_true.1
        (natRepr_all_digits n.toNat)) c h2)

theorem colon_in_zfill (w : Nat) (n : Int) : ':' ∉ zfill w n := by
  intro hm
  rcases zfill_chars w n ':' hm with h | h
  · exact digit_ne_colon ':' h rfl
  · cases h

theorem hms_norm_parse (m s : Int) :
    hms_to_secs ("00:".toList ++ zfill 2 m ++ ':' :: zfill 2 s) =
      some (m * 60 + s) := by
  unfold hms_to_secs
  have hshape : "00:".toList ++ zfill 2 m ++ ':' :: zfill 2 s =
      ['0', '0'] ++ ':' :: (zfill 2 m ++ ':' :: zfill 2 s) := by
    simp
  rw [hshape, pySplit_append ':' _ _ (by decide),
    pySplit_append ':' _ _ (colon_in_zfill 2 m),
    pySplit_no_sep ':' _ (colon_in_zfill 2 s)]
  show (match mapOpt pyInt [['0', '0'], zfill 2 m, zfill 2 s] with
        | none => none
        | some [mv, sv] => some (mv * 60 + sv)
        | some [hv, mv, sv] => some (hv * 3600 + mv * 60 + sv)
        | some _ => none) = some (m * 60 + s)
  have h0 : pyInt ['0', '0'] = some 0 := by decide
  simp only [mapOpt, h0, pyInt_zfill]
  show some (0 * 3600 + m * 60 + s) = some (m * 60 + s)
  rw [show (0 : Int) * 3600 + m * 60 + s = m * 60 + s by ring]

theorem normSrtTs_secs (seg : Seg) (v : Int)
    (h : specSecs seg.timestamp = some v) :
    ∃ u, normSrtTs seg = some ⟨u, seg.text⟩ ∧ hms_to_secs u = some v := by
  unfold specSecs at h
  unfold normSrtTs
  by_cases hcount :
      (if seg.timestamp = [] then "00:00:00".toList
       else seg.timestamp).count ':' = 1
  · rw [if_pos hcount]
    have hlen : (pySplit ':' (if seg.timestamp = [] then "00:00:00".toList
        else seg.timestamp)).length = 2 := by
      rw [pySplit_length, hcount]
    rcases hp : pySplit ':' (if seg.timestamp = [] then "00:00:00".toList
        else seg.timestamp) with _ | ⟨a, _ | ⟨b, _ | ⟨c, rest⟩⟩⟩
    · rw [hp] at hlen
      cases hlen
    · rw [hp] at hlen
      cases hlen
    · unfold hms_to_secs at h
      rw [hp] at h
      cases hA : pyInt a with
      | none =>
        rw [show mapOpt pyInt [a, b] = none by
          simp [mapOpt, hA]] at h
        cases h
      | some mv =>
        cases hB : pyInt b with
        | none =>
          rw [show mapOpt pyInt [a, b] = none by
            simp [mapOpt, hA, hB]] at h
          cases h
        | some sv =>
          rw [show mapOpt pyInt [a, b] = some [mv, sv] by
            simp [mapOpt, hA, hB]] at h
          have hv : mv * 60 + sv = v := by
            simpa using h
          refine ⟨"00:".toList ++ zfill 2 mv ++ ':' :: zfill 2 sv, ?_, ?_⟩
          · show (match pyInt a, pyInt b with
                  | some m, some s =>
                    some (⟨"00:".toList ++ zfill 2 m ++ ':' :: zfill 2 s,
                      seg.text⟩ : Seg)
                  | _, _ => none) =
              some ⟨"00:".toList ++ zfill 2 mv ++ ':' :: zfill 2 sv,
                seg.text⟩
            rw [hA, hB]
          · rw [hms_norm_parse, hv]
    · rw [hp] at hlen
      simp at hlen
  · rw [if_neg hcount]
    exact ⟨_, rfl, h⟩

theorem srtCues_spec (norm : List Seg) (ps : List (Int × PyStr))
    (h : List.Forall₂ (fun (n : Seg) (p : Int × PyStr) =>
      hms_to_secs n.timestamp = some p.1 ∧ n.text = p.2) norm ps) :
    ∀ i, srtCues i norm = some (srtSpecLines i ps) := by
  induction h with
  | nil => intro i; rfl
  | @cons a p as bs hab htl ih =>
    intro i
    unfold srtCues
    rw [hab.1]
    cases htl with
    | nil =>
      simp [srtCues, srtSpecLines, hab.2]
    | @cons a2 p2 as2 bs2 hab2 htl2 =>
      simp only [hab2.1, Option.map_some', ih (i + 1)]
      simp [srtSpecLines, hab.2]

theorem normAll (segs : List Seg) :
    ∀ ps : List (Int × PyStr),
      mapOpt (fun s => (specSecs s.timestamp).map (fun v => (v, s.text)))
        segs = some ps →
      ∃ norm, mapOpt normSrtTs segs = some norm ∧
        List.Forall₂ (fun (n : Seg) (p : Int × PyStr) =>
          hms_to_secs n.timestamp = some p.1 ∧ n.text = p.2) norm ps := by
  induction segs with
  | nil =>
    intro ps h
    cases h
    exact ⟨[], rfl, List.Forall₂.nil⟩
  | cons s rest ih =>
    intro ps h
    unfold mapOpt at h
    cases hs : specSecs s.timestamp with
    | none =>
      rw [hs] at h
      simp at h
    | some v =>
      rw [hs] at h
      cases hrest : mapOpt (fun s =>
          (specSecs s.timestamp).map (fun v => (v, s.text))) rest with
      | none =>
        rw [hrest] at h
        simp at h
      | some ps2 =>
        rw [hrest] at h
        simp only [Option.map_some'] at h
        obtain ⟨norm2, hn2, hf2⟩ := ih ps2 hrest
        obtain ⟨u, hu1, hu2⟩ := normSrtTs_secs s v hs
        refine ⟨⟨u, s.text⟩ :: norm2, ?_, ?_⟩
        · unfold mapOpt
          rw [hu1, hn2]
        · have hps : ps = (v, s.text) :: ps2 := by
            cases h
            rfl
          rw [hps]
          exact List.Forall₂.cons ⟨hu2, rfl⟩ hf2

/-- C8: the SRT renderer emits one numbered cue per segment in order; each
non-final cue ends at `max(start+1, next_start-1)` seconds, the final cue
at `start+2`; an `M:SS` timestamp is normalized to `H:MM:SS` before the
arithmetic; for segments at `0:00`, `0:05`, `0:10` the cue end times are
4, 9 and 12 seconds. -/
theorem claim_C8 :
    ∀ (segs : List Seg) (ps : List (Int × PyStr)),
      mapOpt (fun s => (specSecs s.timestamp).map (fun v => (v, s.text)))
        segs = some ps →
      to_srt segs = some (joinNL (srtSpecLines 1 ps)) := by
  intro segs ps h
  obtain ⟨norm, hn, hf⟩ := normAll segs ps h
  unfold to_srt
  rw [hn]
  show (match srtCues 1 norm with
        | none => none
        | some lines => some (joinNL lines)) =
    some (joinNL (srtSpecLines 1 ps))
  rw [srtCues_spec norm ps hf 1]

theorem claim_C8_witness :
    to_srt [⟨"0:00".toList, "a".toList⟩, ⟨"0:05".toList, "b".toList⟩,
        ⟨"0:10".toList, "c".toList⟩] =
      some ("1\n00:00:00,000 --> 00:00:04,000\na\n\n2\n00:00:05,000 --> 00:00:09,000\nb\n\n3\n00:00:10,000 --> 00:00:12,000\nc\n").toList :=
  (claim_C8
    [⟨"0:00".toList, "a".toList⟩, ⟨"0:05".toList, "b".toList⟩,
      ⟨"0:10".toList, "c".toList⟩]
    [(0, "a".toList), (5, "b".toList), (10, "c".toList)]
    (by decide)).trans (by decide)

/-! ## C3: paragraph content preservation -/

theorem head?_dropWhile (p : Char → Bool) (l : PyStr) :
    ∀ c, (l.dropWhile p).head? = some c → p c = false := by
  induction l with
  | nil => intro c hc; cases hc
  | cons a rest ih =>
    intro c hc
    rw [List.dropWhile_cons] at hc
    by_cases ha : p a
    · rw [if_pos ha] at hc
      exact ih c hc
    · rw [if_neg ha] at hc
      simp only [List.head?_cons, Option.some.injEq] at hc
      rw [← hc]
      exact Bool.eq_false_iff.2 ha

theorem getLast?_dropWhile (p : Char → Bool) (l : PyStr)
    (h : l.dropWhile p ≠ []) : (l.dropWhile p).getLast? = l.getLast? := by
  obtain ⟨t, ht⟩ := List.dropWhile_suffix (l := l) p
  conv_rhs => rw [← ht]
  rw [List.getLast?_append_of_ne_nil _ h]

theorem pyStrip_ok (l : PyStr) : stripOK (pyStrip l) := by
  unfold pyStrip stripOK
  constructor
  · intro c hc
    rw [List.head?_reverse] at hc
    by_cases hd : (l.dropWhile isPySpace).reverse.dropWhile isPySpace = []
    · rw [hd] at hc
      cases hc
    · rw [getLast?_dropWhile _ _ hd, List.getLast?_reverse] at hc
      exact head?_dropWhile _ _ c hc
  · intro c hc
    rw [List.getLast?_reverse] at hc
    exact head?_dropWhile _ _ c hc

theorem stripOK_eq_self (l : PyStr) (h : stripOK l) : pyStrip l = l := by
  unfold pyStrip
  rw [dropWhile_eq_self_of_head _ l h.1]
  rw [dropWhile_eq_self_of_head _ l.reverse
    (fun c hc => h.2 c (by rwa [List.head?_reverse] at hc))]
  exact List.reverse_reverse l

theorem pieceOK_ne_sep (l : PyStr) (h : pieceOK l) : l ≠ [' '] := by
  intro hl
  rw [hl] at h
  exact absurd (h.2.1 ' ' rfl) (by decide)

theorem bufContent_nil : bufContent [] = [] := rfl

theorem bufContent_append (b1 b2 : List PyStr) :
    bufContent (b1 ++ b2) = bufContent b1 ++ bufContent b2 := by
  unfold bufContent
  rw [List.filter_append, List.flatten_append]

theorem bufContent_piece (l : PyStr) (h : l ≠ [' ']) :
    bufContent [l] = l := by
  unfold bufContent
  simp [h]

theorem bufContent_sep : bufContent [[' ']] = [] := rfl

theorem bufOK_nil : bufOK [] := by
  refine ⟨?_, ?_, ?_⟩
  · intro l hl
    exact absurd hl (List.not_mem_nil l)
  · intro l hl
    simp at hl
  · intro l hl
    simp at hl

theorem bufOK_single (l : PyStr) (h : pieceOK l) : bufOK [l] := by
  refine ⟨?_, ?_, ?_⟩
  · intro x hx
    rw [List.mem_singleton.1 hx]
    exact Or.inr h
  · intro x hx
    cases hx
    exact h
  · intro x hx
    simp only [List.getLast?_singleton, Option.some.injEq] at hx
    rw [← hx]
    exact h

theorem bufOK_extend (buf mid : List PyStr) (piece : PyStr)
    (hb : bufOK buf) (hbne : buf ≠ []) (hmid : ∀ l ∈ mid, l = [' '])
    (hp : pieceOK piece) : bufOK (buf ++ mid ++ [piece]) := by
  refine ⟨?_, ?_, ?_⟩
  · intro l hl
    rcases List.mem_append.1 hl with h1 | h1
    · rcases List.mem_append.1 h1 with h2 | h2
      · exact hb.1 l h2
      · exact Or.inl (hmid l h2)
    · rw [List.mem_singleton.1 h1]
      exact Or.inr hp
  · intro l hl
    cases hbuf : buf with
    | nil => exact absurd hbuf hbne
    | cons x xs =>
      rw [hbuf] at hl
      simp only [List.cons_append, List.head?_cons, Option.some.injEq]
        at hl
      rw [← hl]
      exact hb.2.1 x (by rw [hbuf]; rfl)
  · intro l hl
    rw [List.getLast?_concat] at hl
    cases hl
    exact hp

theorem flushPara_inv (st : PSt) (h : stInv st) (hb : st.buf ≠ []) :
    stInv (flushPara st) ∧ stContent (flushPara st) = stContent st := by
  constructor
  · constructor
    · intro p hp
      rcases List.mem_append.1 hp with h1 | h1
      · exact h.1 p h1
      · rw [List.mem_singleton.1 h1]
        exact ⟨hb, h.2⟩
    · exact bufOK_nil
  · unfold stContent flushPara
    simp only [List.map_append, List.map_cons, List.map_nil,
      List.flatten_append, List.flatten_cons, List.flatten_nil,
      List.append_nil, bufContent_nil]

theorem bufStage (ep : List Char) (buf : List PyStr) (piece : PyStr)
    (hb : bufOK buf) (hp : pieceOK piece) :
    bufOK ((if buf.isEmpty then buf
            else if lastEndsInJoin buf ep then buf
            else buf ++ [[' ']]) ++ [piece]) ∧
    bufContent ((if buf.isEmpty then buf
            else if lastEndsInJoin buf ep then buf
            else buf ++ [[' ']]) ++ [piece]) =
      bufContent buf ++ piece := by
  by_cases he : buf.isEmpty
  · have hnil : buf = [] := List.isEmpty_iff.1 he
    subst hnil
    rw [if_pos List.isEmpty_nil, List.nil_append]
    exact ⟨bufOK_single piece hp, by
      rw [bufContent_piece piece (pieceOK_ne_sep piece hp), bufContent_nil,
        List.nil_append]⟩
  · have hbne : buf ≠ [] := fun hn => he (by rw [hn]; rfl)
    rw [if_neg he]
    by_cases hj : lastEndsInJoin buf ep
    · rw [if_pos hj]
      constructor
      · have := bufOK_extend buf [] piece hb hbne
          (fun l hl => absurd hl (List.not_mem_nil l)) hp
        rwa [List.append_nil] at this
      · rw [bufContent_append,
          bufContent_piece piece (pieceOK_ne_sep piece hp)]
    · rw [if_neg hj]
      constructor
      · exact bufOK_extend buf [[' ']] piece hb hbne
          (fun l hl => List.mem_singleton.1 hl) hp
      · rw [bufContent_append, bufContent_append, bufContent_sep,
          bufContent_piece piece (pieceOK_ne_sep piece hp),
          List.append_nil]

theorem preEager_inv (gap : ℚ) (mc : Nat) (ep : List Char) (st : PSt)
    (ts : PyStr) (secs : Int) (piece : PyStr) (h : stInv st)
    (hp : pieceOK piece) :
    stInv (preEagerState gap mc ep st ts secs piece) ∧
    stContent (preEagerState gap mc ep st ts secs piece) =
      stContent st ++ piece := by
  have hstage1 : stInv (if shouldBreak gap mc st secs && !st.buf.isEmpty
        then flushPara st else st) ∧
      stContent (if shouldBreak gap mc st secs && !st.buf.isEmpty
        then flushPara st else st) = stContent st := by
    by_cases hbr : shouldBreak gap mc st secs && !st.buf.isEmpty
    · rw [if_pos hbr]
      refine flushPara_inv st h ?_
      rw [Bool.and_eq_true] at hbr
      intro hnil
      rw [hnil] at hbr
      simp at hbr
    · rw [if_neg hbr]
      exact ⟨h, rfl⟩
  set st1 := (if shouldBreak gap mc st secs && !st.buf.isEmpty
    then flushPara st else st) with hst1
  have hbuf := bufStage ep st1.buf piece hstage1.1.2 hp
  unfold preEagerState
  rw [← hst1]
  constructor
  · exact ⟨hstage1.1.1, hbuf.1⟩
  · show List.flatten (st1.paras.map (fun p => bufContent p.pieces)) ++
        bufContent ((if st1.buf.isEmpty then st1.buf
          else if lastEndsInJoin st1.buf ep then st1.buf
          else st1.buf ++ [[' ']]) ++ [piece]) = stContent st ++ piece
    rw [hbuf.2, ← List.append_assoc]
    have : List.flatten (st1.paras.map (fun p => bufContent p.pieces)) ++
        bufContent st1.buf = stContent st := hstage1.2
    rw [this]

theorem eagerFlush_inv (ep : List Char) (piece : PyStr) (st : PSt)
    (h : stInv st) (hb : st.buf ≠ []) :
    stInv (eagerFlush ep piece st) ∧
      stContent (eagerFlush ep piece st) = stContent st := by
  unfold eagerFlush
  cases piece.getLast? with
  | none => exact ⟨h, rfl⟩
  | some c =>
    show stInv (if c ∈ ep ∧ 30 ≤ bufLen st.buf then flushPara st else st) ∧
      stContent (if c ∈ ep ∧ 30 ≤ bufLen st.buf then flushPara st
        else st) = stContent st
    by_cases hc : c ∈ ep ∧ 30 ≤ bufLen st.buf
    · rw [if_pos hc]
      exact flushPara_inv st h hb
    · rw [if_neg hc]
      exact ⟨h, rfl⟩

theorem stepSeg_inv (gap : ℚ) (mc : Nat) (ep : List Char) (st : PSt)
    (seg : Seg) (h : stInv st) :
    stInv (stepSeg gap mc ep st seg) ∧
    stContent (stepSeg gap mc ep st seg) =
      stContent st ++ _clean_piece seg.text := by
  by_cases hp : _clean_piece seg.text = []
  · unfold stepSeg
    rw [if_pos hp, hp]
    exact ⟨h, (List.append_nil _).symm⟩
  · unfold stepSeg
    rw [if_neg hp]
    have hpc : pieceOK (_clean_piece seg.text) := ⟨hp, pyStrip_ok _⟩
    have hpre := preEager_inv gap mc ep st seg.timestamp
      (_ts_to_secs seg.timestamp) (_clean_piece seg.text) h hpc
    have hbne := preEagerState_buf_ne_nil gap mc ep st seg.timestamp
      (_ts_to_secs seg.timestamp) (_clean_piece seg.text)
    have heag := eagerFlush_inv ep (_clean_piece seg.text) _ hpre.1 hbne
    exact ⟨heag.1, heag.2.trans hpre.2⟩

theorem foldl_inv (gap : ℚ) (mc : Nat) (ep : List Char) (segs : List Seg) :
    ∀ st, stInv st →
      stInv (segs.foldl (stepSeg gap mc ep) st) ∧
      stContent (segs.foldl (stepSeg gap mc ep) st) =
        stContent st ++
          List.flatten (segs.map (fun s => _clean_piece s.text)) := by
  induction segs with
  | nil =>
    intro st h
    exact ⟨h, by simp⟩
  | cons s rest ih =>
    intro st h
    rw [List.foldl_cons]
    have hstep := stepSeg_inv gap mc ep st s h
    have hrest := ih _ hstep.1
    refine ⟨hrest.1, ?_⟩
    rw [hrest.2, hstep.2]
    simp [List.append_assoc]

theorem parasOf_ok (gap : ℚ) (mc : Nat) (ep : List Char)
    (segs : List Seg) :
    (∀ p ∈ parasOf gap mc ep segs, p.pieces ≠ [] ∧ bufOK p.pieces) ∧
    List.flatten ((parasOf gap mc ep segs).map
        (fun p => bufContent p.pieces)) =
      List.flatten (segs.map (fun s => _clean_piece s.text)) := by
  have hinit : stInv initSt :=
    ⟨fun p hp => absurd hp (List.not_mem_nil p), bufOK_nil⟩
  have hrun : stInv (runSegs gap mc ep segs) ∧
      stContent (runSegs gap mc ep segs) =
        stContent initSt ++
          List.flatten (segs.map (fun s => _clean_piece s.text)) :=
    foldl_inv gap mc ep segs initSt hinit
  have hcontent : List.flatten ((runSegs gap mc ep segs).paras.map
        (fun p => bufContent p.pieces)) ++
      bufContent (runSegs gap mc ep segs).buf =
      List.flatten (segs.map (fun s => _clean_piece s.text)) := by
    have h2 := hrun.2
    unfold stContent at h2
    simp only [initSt, List.map_nil, List.flatten_nil, bufContent_nil,
      List.nil_append, List.append_nil] at h2
    exact h2
  unfold parasOf
  by_cases hb : (runSegs gap mc ep segs).buf = []
  · rw [if_pos hb]
    rw [hb, bufContent_nil, List.append_nil] at hcontent
    exact ⟨fun p hp => hrun.1.1 p (by simpa using hp), by
      simpa using hcontent⟩
  · rw [if_neg hb]
    constructor
    · intro p hp
      rcases List.mem_append.1 hp with h1 | h1
      · exact hrun.1.1 p h1
      · rw [List.mem_singleton.1 h1]
        exact ⟨hb, hrun.1.2⟩
    · rw [List.map_append, List.flatten_append]
      simpa using hcontent

theorem flatten_stripOK (buf : List PyStr) (h : bufOK buf) :
    stripOK (List.flatten buf) := by
  constructor
  · intro c hc
    cases buf with
    | nil => cases hc
    | cons l rest =>
      have hl : pieceOK l := h.2.1 l rfl
      rw [List.flatten_cons, List.head?_append] at hc
      cases hl2 : l.head? with
      | none =>
        exact absurd (List.head?_eq_none_iff.1 hl2) hl.1
      | some d =>
        rw [hl2] at hc
        have hdc : some d = some c := hc
        cases hdc
        exact hl.2.1 c hl2
  · intro c hc
    rcases List.eq_nil_or_concat buf with hnil | ⟨ys, l, hcat⟩
    · rw [hnil] at hc
      cases hc
    · rw [List.concat_eq_append] at hcat
      have hl : pieceOK l := h.2.2 l (by
        rw [hcat, List.getLast?_concat])
      rw [hcat, List.flatten_append, List.flatten_cons,
        List.flatten_nil, List.append_nil,
        List.getLast?_append_of_ne_nil _ hl.1] at hc
      exact hl.2.2 c hc

theorem renderPara_false (p : Para) (_hne : p.pieces ≠ [])
    (hb : bufOK p.pieces) : renderPara false p = List.flatten p.pieces := by
  unfold renderPara
  rw [stripOK_eq_self _ (flatten_stripOK p.pieces hb)]
  cases p.startTs with
  | none => rfl
  | some t => simp

theorem flatten_filter_ne_nil (ls : List PyStr) :
    List.flatten (ls.filter (fun t => decide (t ≠ []))) =
      List.flatten ls := by
  induction ls with
  | nil => rfl
  | cons t rest ih =>
    rw [List.filter_cons]
    by_cases ht : t = []
    · rw [if_neg (by simp [ht]), List.flatten_cons, ht, List.nil_append,
        ih]
    · rw [if_pos (by simp [ht]), List.flatten_cons, List.flatten_cons, ih]

/-- C3: for every canonical segment sequence and configuration, each
paragraph body produced by `segments_to_paragraphs` is exactly the
concatenation of its buffered pieces (the flush-time `strip` removes
nothing), and concatenating all bodies after removing the single-space
separators inserted between merged pieces equals the in-order
concatenation of all cleaned non-empty input texts — no characters are
dropped or duplicated. -/
theorem claim_C3 :
    ∀ (segs : List Seg) (gap : ℚ) (mc : Nat) (ep : List Char),
      segments_to_paragraphs segs gap mc ep false =
        (parasOf gap mc ep segs).map (fun p => List.flatten p.pieces) ∧
      List.flatten ((parasOf gap mc ep segs).map
          (fun p => bufContent p.pieces)) =
        List.flatten ((segs.map (fun s => _clean_piece s.text)).filter
          (fun t => decide (t ≠ []))) := by
  intro segs gap mc ep
  have hok := parasOf_ok gap mc ep segs
  constructor
  · unfold segments_to_paragraphs
    exact List.map_congr_left (fun p hp =>
      renderPara_false p (hok.1 p hp).1 (hok.1 p hp).2)
  · rw [hok.2, flatten_filter_ne_nil]

end YTC
